import Mathlib

/-!
# Verification of the online-forum vote/ranking core

Shallow embedding of the repository's vote ledger, score maintenance,
post ranking, cascade rules and frontend `PostCard` handlers, together
with proofs of the specification's claims about them.

The backend of this repository is expressed in its product-requirements
document (`src/unnamed/part_002`): the `votes`/`posts`/`topics`/`reports`
SQL schema with its CHECK / UNIQUE / foreign-key constraints, the
`update_post_vote_count` triggers, and the `POST /api/posts/:id/vote`
business-logic pseudocode.  The definitions below translate those
artifacts directly; SQL row-level semantics (`UPDATE ... WHERE`,
`DELETE ... WHERE`, per-row triggers) are modelled as the corresponding
list transformations, and a transaction that violates a constraint
aborts with an error, leaving the state unchanged (all-or-nothing).
-/

namespace Forum

abbrev UserId := Nat
abbrev PostId := Nat

/-- A row of the `posts` table, restricted to the columns the voting
core touches: `id` and the denormalized `vote_count INTEGER DEFAULT 0`. -/
structure PostRow where
  id : PostId
  vote_count : Int
deriving DecidableEq

/-- A row of the `votes` table: `user_id`, `post_id`, `vote_type`.
The schema's CHECK and UNIQUE constraints are enforced by the
operations (`wfVotes` states them as an invariant). -/
structure VoteRow where
  user_id : UserId
  post_id : PostId
  vote_type : Int
deriving DecidableEq

/-- The part of the database state the voting core reads and writes. -/
structure VoteState where
  posts : List PostRow
  votes : List VoteRow
deriving DecidableEq

/-- Typed errors of the vote endpoint: 401 `UNAUTHORIZED`,
404 `POST_NOT_FOUND`, and rejection of a `vote_type` the
`CHECK (vote_type IN (-1, 1))` constraint refuses to store. -/
inductive VoteError where
  | Unauthorized
  | NotFound
  | InvalidVoteValue
deriving DecidableEq

/-- The vote endpoint's success payload `{ vote_count, user_vote }`. -/
structure VoteResult where
  vote_count : Int
  user_vote : Int
deriving DecidableEq

/-- `EXISTS (SELECT 1 FROM posts WHERE id = p)`. -/
def postExists (s : VoteState) (p : PostId) : Bool :=
  s.posts.any (fun r => r.id == p)

/-- `SELECT vote_count FROM posts WHERE id = p` (0 if the post is missing). -/
def scoreList (l : List PostRow) (p : PostId) : Int :=
  ((l.find? (fun r => r.id == p)).map (fun r => r.vote_count)).getD 0

def scoreOf (s : VoteState) (p : PostId) : Int :=
  scoreList s.posts p

/-- `UPDATE posts SET vote_count = vote_count + d WHERE id = p`
(the body of the `update_post_vote_count` trigger function). -/
def bumpScore (l : List PostRow) (p : PostId) (d : Int) : List PostRow :=
  l.map (fun r => if r.id == p then { r with vote_count := r.vote_count + d } else r)

/-- Row predicate of `WHERE user_id = a AND post_id = p`. -/
def voteMatches (a : UserId) (p : PostId) (r : VoteRow) : Bool :=
  r.user_id == a && r.post_id == p

/-- `SELECT vote_type FROM votes WHERE user_id = a AND post_id = p`:
the actor's existing vote, `none` when no row exists. -/
def findVote (s : VoteState) (a : UserId) (p : PostId) : Option Int :=
  (s.votes.find? (voteMatches a p)).map (fun r => r.vote_type)

/-- `INSERT INTO votes VALUES (a, p, v)`; the AFTER INSERT trigger adds
`NEW.vote_type` to the post's `vote_count`. -/
def insertVote (s : VoteState) (a : UserId) (p : PostId) (v : Int) : VoteState :=
  { posts := bumpScore s.posts p v
    votes := s.votes ++ [⟨a, p, v⟩] }

/-- Sum of `vote_type` over the rows `WHERE user_id = a AND post_id = p`. -/
def matchSum (l : List VoteRow) (a : UserId) (p : PostId) : Int :=
  ((l.filter (voteMatches a p)).map (fun r => r.vote_type)).sum

/-- Number of rows `WHERE user_id = a AND post_id = p`. -/
def matchCount (l : List VoteRow) (a : UserId) (p : PostId) : Nat :=
  (l.filter (voteMatches a p)).length

/-- `DELETE FROM votes WHERE user_id = a AND post_id = p`; the AFTER
DELETE trigger subtracts `OLD.vote_type` for each deleted row. -/
def deleteVotes (s : VoteState) (a : UserId) (p : PostId) : VoteState :=
  { posts := bumpScore s.posts p (-(matchSum s.votes a p))
    votes := s.votes.filter (fun r => !(voteMatches a p r)) }

/-- `UPDATE votes SET vote_type = v WHERE user_id = a AND post_id = p`;
the AFTER UPDATE trigger adds `NEW.vote_type - OLD.vote_type` for each
updated row. -/
def updateVotes (s : VoteState) (a : UserId) (p : PostId) (v : Int) : VoteState :=
  { posts := bumpScore s.posts p ((matchCount s.votes a p : Int) * v - matchSum s.votes a p)
    votes := s.votes.map (fun r => if voteMatches a p r then { r with vote_type := v } else r) }

/-- `POST /api/posts/:id/vote`, translated from the PRD's business-logic
pseudocode (an authenticated actor, an existing post, then the
no-existing-vote / same / zero / different branches) run against the
schema: any attempt to store a `vote_type` outside `{-1, 1}` violates
`CHECK (vote_type IN (-1, 1))` and aborts the whole transaction. -/
def submitVote (s : VoteState) (actor : Option UserId) (p : PostId) (v : Int) :
    Except VoteError (VoteState × VoteResult) :=
  match actor with
  | none => .error .Unauthorized
  | some a =>
    if postExists s p then
      match findVote s a p with
      | none =>
        -- "Create new vote with value; update post.vote_count (+1 or -1)"
        if v = 1 ∨ v = -1 then
          let s' := insertVote s a p v
          .ok (s', ⟨scoreOf s' p, v⟩)
        else
          -- the INSERT violates CHECK (vote_type IN (-1, 1))
          .error .InvalidVoteValue
      | some prior =>
        if v = prior then
          -- "Delete vote (toggle off)"
          let s' := deleteVotes s a p
          .ok (s', ⟨scoreOf s' p, 0⟩)
        else if v = 0 then
          -- "Delete vote"
          let s' := deleteVotes s a p
          .ok (s', ⟨scoreOf s' p, 0⟩)
        else if v = 1 ∨ v = -1 then
          -- "Update vote to new value"
          let s' := updateVotes s a p v
          .ok (s', ⟨scoreOf s' p, v⟩)
        else
          -- the UPDATE violates CHECK (vote_type IN (-1, 1))
          .error .InvalidVoteValue
    else .error .NotFound

/-- The state after one call: a failed transaction rolls back. -/
def stepVote (s : VoteState) (actor : Option UserId) (p : PostId) (v : Int) : VoteState :=
  match submitVote s actor p v with
  | .ok (s', _) => s'
  | .error _ => s

/-- A vote request as received by the endpoint. -/
structure VoteReq where
  actor : Option UserId
  post : PostId
  value : Int

/-- Run a finite sequence of `submitVote` calls. -/
def runVotes (s : VoteState) (reqs : List VoteReq) : VoteState :=
  reqs.foldl (fun s r => stepVote s r.actor r.post r.value) s

/-- An initial database: the given posts, each with
`vote_count DEFAULT 0`, and an empty `votes` table. -/
def mkInit (ps : List PostId) : VoteState :=
  { posts := ps.map (fun i => ⟨i, 0⟩), votes := [] }

/-- Sum of the live vote values referencing post `q`
(`SELECT COALESCE(SUM(vote_type), 0) FROM votes WHERE post_id = q`). -/
def postVotes (l : List VoteRow) (q : PostId) : Int :=
  ((l.filter (fun r => r.post_id == q)).map (fun r => r.vote_type)).sum

/-- The spec's score invariant: every post's cumulative score equals the
sum of the live vote values referencing it. -/
def scoreInv (s : VoteState) : Prop :=
  ∀ q : PostId, scoreOf s q = postVotes s.votes q

/-- The `votes` table's declared constraints:
`CHECK (vote_type IN (-1, 1))` and `UNIQUE (user_id, post_id)`. -/
def wfVotes (s : VoteState) : Prop :=
  (∀ r ∈ s.votes, r.vote_type = 1 ∨ r.vote_type = -1) ∧
  s.votes.Pairwise (fun r r' => ¬(r.user_id = r'.user_id ∧ r.post_id = r'.post_id))

instance (s : VoteState) : Decidable (wfVotes s) :=
  inferInstanceAs (Decidable
    ((∀ r ∈ s.votes, r.vote_type = 1 ∨ r.vote_type = -1) ∧
      s.votes.Pairwise (fun r r' : VoteRow => ¬(r.user_id = r'.user_id ∧ r.post_id = r'.post_id))))

/-! ## Bookkeeping lemmas for `posts.vote_count` -/

lemma bumpScore_cons (r : PostRow) (t : List PostRow) (p : PostId) (d : Int) :
    bumpScore (r :: t) p d
      = (if r.id = p then { r with vote_count := r.vote_count + d } else r) :: bumpScore t p d := by
  simp [bumpScore]

lemma scoreList_cons (r : PostRow) (t : List PostRow) (q : PostId) :
    scoreList (r :: t) q = if r.id = q then r.vote_count else scoreList t q := by
  by_cases h : r.id = q
  · rw [scoreList, List.find?_cons_of_pos _ (by simp [h])]
    simp [h]
  · rw [scoreList, List.find?_cons_of_neg _ (by simp [h])]
    simp [h, scoreList]

lemma bumped_id (r : PostRow) (p : PostId) (d : Int) :
    ((if r.id = p then { r with vote_count := r.vote_count + d } else r) : PostRow).id = r.id := by
  split <;> rfl

lemma bumpScore_bumpScore (l : List PostRow) (p : PostId) (d₁ d₂ : Int) :
    bumpScore (bumpScore l p d₁) p d₂ = bumpScore l p (d₁ + d₂) := by
  induction l with
  | nil => rfl
  | cons r t ih =>
    rw [bumpScore_cons, bumpScore_cons, bumpScore_cons, ih]
    by_cases h : r.id = p
    · simp [h, add_assoc]
    · simp [h]

lemma bumpScore_zero (l : List PostRow) (p : PostId) :
    bumpScore l p 0 = l := by
  induction l with
  | nil => rfl
  | cons r t ih =>
    rw [bumpScore_cons, ih]
    by_cases h : r.id = p
    · rw [if_pos h]
      simp only [add_zero]
    · rw [if_neg h]

lemma scoreList_bumpScore_self (l : List PostRow) (p : PostId) (d : Int)
    (h : l.any (fun r => r.id == p) = true) :
    scoreList (bumpScore l p d) p = scoreList l p + d := by
  induction l with
  | nil => simp at h
  | cons r t ih =>
    rw [bumpScore_cons, scoreList_cons, scoreList_cons]
    simp only [bumped_id]
    by_cases hr : r.id = p
    · rw [if_pos hr, if_pos hr, if_pos hr]
    · have hb : (r.id == p) = false := by simp [hr]
      rw [List.any_cons, hb, Bool.false_or] at h
      rw [if_neg hr, if_neg hr]
      exact ih h

lemma scoreList_bumpScore_ne (l : List PostRow) (p q : PostId) (d : Int)
    (h : q ≠ p) :
    scoreList (bumpScore l p d) q = scoreList l q := by
  induction l with
  | nil => rfl
  | cons r t ih =>
    rw [bumpScore_cons, scoreList_cons, scoreList_cons]
    simp only [bumped_id]
    by_cases hq : r.id = q
    · have hr : ¬(r.id = p) := fun hc => h (hq ▸ hc)
      rw [if_pos hq, if_pos hq, if_neg hr]
    · rw [if_neg hq, if_neg hq]
      exact ih

lemma any_bumpScore (l : List PostRow) (p q : PostId) (d : Int) :
    (bumpScore l p d).any (fun r => r.id == q) = l.any (fun r => r.id == q) := by
  induction l with
  | nil => rfl
  | cons r t ih =>
    rw [bumpScore_cons]
    simp only [List.any_cons, bumped_id, ih]

/-! ## Bookkeeping lemmas for the `votes` table -/

lemma voteMatches_iff (a : UserId) (p : PostId) (r : VoteRow) :
    voteMatches a p r = true ↔ r.user_id = a ∧ r.post_id = p := by
  simp [voteMatches]

lemma voteMatches_post (a : UserId) (p : PostId) (r : VoteRow)
    (h : voteMatches a p r = true) : r.post_id = p :=
  ((voteMatches_iff a p r).mp h).2

lemma postVotes_cons (r : VoteRow) (t : List VoteRow) (q : PostId) :
    postVotes (r :: t) q = (if r.post_id = q then r.vote_type else 0) + postVotes t q := by
  by_cases h : r.post_id = q
  · simp [postVotes, List.filter_cons, h]
  · simp [postVotes, List.filter_cons, h]

lemma matchSum_cons (r : VoteRow) (t : List VoteRow) (a : UserId) (p : PostId) :
    matchSum (r :: t) a p
      = (if voteMatches a p r then r.vote_type else 0) + matchSum t a p := by
  by_cases h : voteMatches a p r = true
  · simp [matchSum, List.filter_cons, h]
  · simp [matchSum, List.filter_cons, h]

lemma matchCount_cons (r : VoteRow) (t : List VoteRow) (a : UserId) (p : PostId) :
    matchCount (r :: t) a p
      = (if voteMatches a p r then 1 else 0) + matchCount t a p := by
  by_cases h : voteMatches a p r = true
  · simp [matchCount, List.filter_cons, h, Nat.add_comm]
  · simp [matchCount, List.filter_cons, h]

lemma postVotes_append_single (l : List VoteRow) (r : VoteRow) (q : PostId) :
    postVotes (l ++ [r]) q = postVotes l q + (if r.post_id = q then r.vote_type else 0) := by
  by_cases h : r.post_id = q
  · simp [postVotes, List.filter_append, List.filter_cons, h]
  · simp [postVotes, List.filter_append, List.filter_cons, h]

lemma postVotes_filter_not_self (l : List VoteRow) (a : UserId) (p : PostId) :
    postVotes (l.filter (fun r => !(voteMatches a p r))) p
      = postVotes l p - matchSum l a p := by
  induction l with
  | nil => simp [postVotes, matchSum]
  | cons r t ih =>
    rw [postVotes_cons, matchSum_cons]
    by_cases hm : voteMatches a p r = true
    · have hp : r.post_id = p := voteMatches_post a p r hm
      have hne : ¬((!(voteMatches a p r)) = true) := by simp [hm]
      rw [List.filter_cons, if_neg hne, ih, if_pos hm, if_pos hp]
      omega
    · have hyes : (!(voteMatches a p r)) = true := by
        simp [Bool.eq_false_iff.mpr hm]
      rw [List.filter_cons, if_pos hyes, postVotes_cons, ih, if_neg hm]
      omega

lemma postVotes_filter_not_ne (l : List VoteRow) (a : UserId) (p q : PostId)
    (h : q ≠ p) :
    postVotes (l.filter (fun r => !(voteMatches a p r))) q = postVotes l q := by
  induction l with
  | nil => rfl
  | cons r t ih =>
    rw [postVotes_cons]
    by_cases hm : voteMatches a p r = true
    · have hp : r.post_id = p := voteMatches_post a p r hm
      have hq : ¬(r.post_id = q) := fun hc => h (hc ▸ hp ▸ rfl)
      have hne : ¬((!(voteMatches a p r)) = true) := by simp [hm]
      rw [List.filter_cons, if_neg hne, ih, if_neg hq, zero_add]
    · have hyes : (!(voteMatches a p r)) = true := by
        simp [Bool.eq_false_iff.mpr hm]
      rw [List.filter_cons, if_pos hyes, postVotes_cons, ih]

lemma updated_vote_fields (a : UserId) (p : PostId) (v : Int) (r : VoteRow) :
    ((if voteMatches a p r then { r with vote_type := v } else r) : VoteRow).user_id = r.user_id ∧
    ((if voteMatches a p r then { r with vote_type := v } else r) : VoteRow).post_id = r.post_id := by
  split <;> exact ⟨rfl, rfl⟩

lemma voteMatches_updated (a : UserId) (p : PostId) (v : Int) (r : VoteRow) :
    voteMatches a p (if voteMatches a p r then { r with vote_type := v } else r)
      = voteMatches a p r := by
  split <;> rfl

lemma mk_vote_type (r : VoteRow) (v : Int) :
    (({ r with vote_type := v } : VoteRow)).vote_type = v := rfl

lemma postVotes_update_self (l : List VoteRow) (a : UserId) (p : PostId) (v : Int) :
    postVotes (l.map (fun r => if voteMatches a p r then { r with vote_type := v } else r)) p
      = postVotes l p + ((matchCount l a p : Int) * v - matchSum l a p) := by
  induction l with
  | nil => simp [postVotes, matchSum, matchCount]
  | cons r t ih =>
    rw [List.map_cons, postVotes_cons, (updated_vote_fields a p v r).2,
      postVotes_cons, matchSum_cons, matchCount_cons, ih]
    by_cases hm : voteMatches a p r = true
    · have hp : r.post_id = p := voteMatches_post a p r hm
      rw [if_pos hm, if_pos hm, if_pos hm, mk_vote_type, if_pos hp, if_pos hp]
      push_cast
      ring
    · rw [if_neg hm, if_neg hm, if_neg hm]
      push_cast
      ring

lemma postVotes_update_ne (l : List VoteRow) (a : UserId) (p q : PostId) (v : Int)
    (h : q ≠ p) :
    postVotes (l.map (fun r => if voteMatches a p r then { r with vote_type := v } else r)) q
      = postVotes l q := by
  induction l with
  | nil => rfl
  | cons r t ih =>
    rw [List.map_cons, postVotes_cons, (updated_vote_fields a p v r).2,
      postVotes_cons, ih]
    by_cases hm : voteMatches a p r = true
    · have hp : r.post_id = p := voteMatches_post a p r hm
      have hq : ¬(r.post_id = q) := fun hc => h (hc ▸ hp ▸ rfl)
      rw [if_neg hq, if_neg hq]
    · rw [if_neg hm]

/-! ## Reading the ledger before and after each operation -/

lemma findVote_none_iff (s : VoteState) (a : UserId) (p : PostId) :
    findVote s a p = none ↔ ∀ r ∈ s.votes, voteMatches a p r = false := by
  rw [findVote, Option.map_eq_none', List.find?_eq_none]
  constructor
  · intro h r hr
    exact Bool.eq_false_iff.mpr (h r hr)
  · intro h r hr
    exact Bool.eq_false_iff.mp (h r hr)

lemma findVote_some_elim (s : VoteState) (a : UserId) (p : PostId) (w : Int)
    (h : findVote s a p = some w) :
    ∃ r0, s.votes.find? (voteMatches a p) = some r0 ∧ r0.vote_type = w := by
  rw [findVote] at h
  rcases Option.map_eq_some'.mp h with ⟨r0, hr0, hw⟩
  exact ⟨r0, hr0, hw⟩

lemma find?_append_of_none {l₁ l₂ : List VoteRow} {f : VoteRow → Bool}
    (h : l₁.find? f = none) : (l₁ ++ l₂).find? f = l₂.find? f := by
  induction l₁ with
  | nil => rfl
  | cons r t ih =>
    have hall := List.find?_eq_none.mp h
    have hr : ¬(f r = true) := hall r (List.mem_cons_self r t)
    have ht : t.find? f = none :=
      List.find?_eq_none.mpr (fun x hx => hall x (List.mem_cons_of_mem r hx))
    rw [List.cons_append, List.find?_cons_of_neg _ hr]
    exact ih ht

lemma voteMatches_self (a : UserId) (p : PostId) (v : Int) :
    voteMatches a p ⟨a, p, v⟩ = true := by
  simp [voteMatches]

lemma findVote_insert_self (s : VoteState) (a : UserId) (p : PostId) (v : Int)
    (h : findVote s a p = none) :
    findVote (insertVote s a p v) a p = some v := by
  have h' : s.votes.find? (voteMatches a p) = none := by
    rw [findVote] at h
    exact Option.map_eq_none'.mp h
  rw [findVote, insertVote, find?_append_of_none h',
    List.find?_cons_of_pos _ (voteMatches_self a p v)]
  rfl

lemma findVote_delete_self (s : VoteState) (a : UserId) (p : PostId) :
    findVote (deleteVotes s a p) a p = none := by
  rw [findVote, Option.map_eq_none', List.find?_eq_none]
  intro r hr
  have hmem := (List.mem_filter.mp hr).2
  intro hc
  rw [hc] at hmem
  simp at hmem

lemma find?_map_update (l : List VoteRow) (a : UserId) (p : PostId) (v : Int) (r0 : VoteRow)
    (hr0 : l.find? (voteMatches a p) = some r0) :
    Option.map (fun r => r.vote_type)
      ((l.map (fun r => if voteMatches a p r then { r with vote_type := v } else r)).find?
        (voteMatches a p)) = some v := by
  induction l with
  | nil => simp at hr0
  | cons r t ih =>
    by_cases hm : voteMatches a p r = true
    · rw [List.map_cons,
        List.find?_cons_of_pos _ (by rw [voteMatches_updated]; exact hm), if_pos hm]
      rfl
    · rw [List.find?_cons_of_neg _ hm] at hr0
      rw [List.map_cons,
        List.find?_cons_of_neg _ (by rw [voteMatches_updated]; exact hm)]
      exact ih hr0

lemma findVote_update_self (s : VoteState) (a : UserId) (p : PostId) (v : Int) (w : Int)
    (h : findVote s a p = some w) :
    findVote (updateVotes s a p v) a p = some v := by
  rcases findVote_some_elim s a p w h with ⟨r0, hr0, -⟩
  rw [findVote]
  simp only [updateVotes]
  exact find?_map_update s.votes a p v r0 hr0

/-- The UNIQUE constraint: when the actor's vote is found, the rows
matching `(user_id, post_id)` are exactly the found one. -/
lemma filter_match_eq_single (l : List VoteRow) (a : UserId) (p : PostId) (r0 : VoteRow)
    (hpw : l.Pairwise (fun r r' => ¬(r.user_id = r'.user_id ∧ r.post_id = r'.post_id)))
    (hf : l.find? (voteMatches a p) = some r0) :
    l.filter (voteMatches a p) = [r0] := by
  induction l with
  | nil => simp at hf
  | cons r t ih =>
    rcases List.pairwise_cons.mp hpw with ⟨hr, hpt⟩
    by_cases hm : voteMatches a p r = true
    · rw [List.find?_cons_of_pos _ hm] at hf
      rw [List.filter_cons, if_pos hm, Option.some_inj.mp hf]
      have ht : t.filter (voteMatches a p) = [] := by
        rw [List.filter_eq_nil_iff]
        intro x hx hmx
        rcases (voteMatches_iff a p r).mp hm with ⟨hu, hp'⟩
        rcases (voteMatches_iff a p x).mp hmx with ⟨hu', hp''⟩
        exact hr x hx ⟨hu.trans hu'.symm, hp'.trans hp''.symm⟩
      rw [ht]
    · rw [List.find?_cons_of_neg _ hm] at hf
      rw [List.filter_cons, if_neg hm]
      exact ih hpt hf

lemma matchSum_of_unique (s : VoteState) (a : UserId) (p : PostId) (w : Int)
    (hwf : wfVotes s) (h : findVote s a p = some w) :
    matchSum s.votes a p = w ∧ matchCount s.votes a p = 1 := by
  rcases findVote_some_elim s a p w h with ⟨r0, hr0, hw⟩
  have hs := filter_match_eq_single s.votes a p r0 hwf.2 hr0
  constructor
  · rw [matchSum, hs, List.map_cons, List.map_nil, List.sum_cons, List.sum_nil, add_zero, hw]
  · rw [matchCount, hs, List.length_cons, List.length_nil]

/-! ## Which branch a call takes -/

lemma stepVote_none (s : VoteState) (p : PostId) (v : Int) :
    stepVote s none p v = s := rfl

lemma stepVote_not_found (s : VoteState) (a : UserId) (p : PostId) (v : Int)
    (hp : postExists s p = false) :
    stepVote s (some a) p v = s := by
  rw [stepVote, submitVote]
  simp [hp]

lemma stepVote_insert (s : VoteState) (a : UserId) (p : PostId) (v : Int)
    (hp : postExists s p = true) (hf : findVote s a p = none) (hv : v = 1 ∨ v = -1) :
    stepVote s (some a) p v = insertVote s a p v := by
  rw [stepVote, submitVote]
  simp [hp, hf, hv]

lemma stepVote_invalid_new (s : VoteState) (a : UserId) (p : PostId) (v : Int)
    (hf : findVote s a p = none) (hv : ¬(v = 1 ∨ v = -1)) :
    stepVote s (some a) p v = s := by
  rw [stepVote, submitVote]
  by_cases hp : postExists s p
  · simp [hp, hf, hv]
  · simp [hp]

lemma stepVote_toggle (s : VoteState) (a : UserId) (p : PostId) (w : Int)
    (hp : postExists s p = true) (hf : findVote s a p = some w) :
    stepVote s (some a) p w = deleteVotes s a p := by
  rw [stepVote, submitVote]
  simp [hp, hf]

lemma stepVote_retract (s : VoteState) (a : UserId) (p : PostId) (w : Int)
    (hp : postExists s p = true) (hf : findVote s a p = some w) (hw : (0 : Int) ≠ w) :
    stepVote s (some a) p 0 = deleteVotes s a p := by
  rw [stepVote, submitVote]
  simp [hp, hf, hw]

lemma stepVote_switch (s : VoteState) (a : UserId) (p : PostId) (v w : Int)
    (hp : postExists s p = true) (hf : findVote s a p = some w)
    (hvw : v ≠ w) (hv0 : v ≠ 0) (hv : v = 1 ∨ v = -1) :
    stepVote s (some a) p v = updateVotes s a p v := by
  rw [stepVote, submitVote]
  simp [hp, hf, hvw, hv0, hv]

lemma stepVote_invalid_old (s : VoteState) (a : UserId) (p : PostId) (v w : Int)
    (hf : findVote s a p = some w)
    (hvw : v ≠ w) (hv0 : v ≠ 0) (hv : ¬(v = 1 ∨ v = -1)) :
    stepVote s (some a) p v = s := by
  rw [stepVote, submitVote]
  by_cases hp : postExists s p
  · simp [hp, hf, hvw, hv0, hv]
  · simp [hp]

/-! ## Preservation of the score invariant -/

lemma scoreInv_insert {s : VoteState} (a : UserId) (p : PostId) (v : Int)
    (h : scoreInv s) (hp : postExists s p = true) : scoreInv (insertVote s a p v) := by
  intro q
  have hb : scoreList s.posts q = postVotes s.votes q := h q
  show scoreList (bumpScore s.posts p v) q = postVotes (s.votes ++ [⟨a, p, v⟩]) q
  by_cases hq : q = p
  · subst hq
    rw [scoreList_bumpScore_self s.posts q v hp, postVotes_append_single, hb]
    simp
  · rw [scoreList_bumpScore_ne s.posts p q v hq, postVotes_append_single, hb]
    have hne : ¬(((⟨a, p, v⟩ : VoteRow)).post_id = q) := fun hc => hq hc.symm
    rw [if_neg hne, add_zero]

lemma scoreInv_delete {s : VoteState} (a : UserId) (p : PostId)
    (h : scoreInv s) (hp : postExists s p = true) : scoreInv (deleteVotes s a p) := by
  intro q
  have hb : scoreList s.posts q = postVotes s.votes q := h q
  show scoreList (bumpScore s.posts p (-(matchSum s.votes a p))) q
    = postVotes (s.votes.filter (fun r => !(voteMatches a p r))) q
  by_cases hq : q = p
  · subst hq
    rw [scoreList_bumpScore_self s.posts q _ hp, postVotes_filter_not_self, hb]
    omega
  · rw [scoreList_bumpScore_ne s.posts p q _ hq, postVotes_filter_not_ne s.votes a p q hq, hb]

lemma scoreInv_update {s : VoteState} (a : UserId) (p : PostId) (v : Int)
    (h : scoreInv s) (hp : postExists s p = true) : scoreInv (updateVotes s a p v) := by
  intro q
  have hb : scoreList s.posts q = postVotes s.votes q := h q
  show scoreList (bumpScore s.posts p ((matchCount s.votes a p : Int) * v - matchSum s.votes a p)) q
    = postVotes (s.votes.map (fun r => if voteMatches a p r then { r with vote_type := v } else r)) q
  by_cases hq : q = p
  · subst hq
    rw [scoreList_bumpScore_self s.posts q _ hp, postVotes_update_self, hb]
  · rw [scoreList_bumpScore_ne s.posts p q _ hq, postVotes_update_ne s.votes a p q v hq, hb]

lemma scoreInv_stepVote {s : VoteState} (actor : Option UserId) (p : PostId) (v : Int)
    (h : scoreInv s) : scoreInv (stepVote s actor p v) := by
  cases actor with
  | none => rw [stepVote_none]; exact h
  | some a =>
    by_cases hp : postExists s p
    · cases hfv : findVote s a p with
      | none =>
        by_cases hv : v = 1 ∨ v = -1
        · rw [stepVote_insert s a p v hp hfv hv]
          exact scoreInv_insert a p v h hp
        · rw [stepVote_invalid_new s a p v hfv hv]
          exact h
      | some w =>
        by_cases hvw : v = w
        · subst hvw
          rw [stepVote_toggle s a p v hp hfv]
          exact scoreInv_delete a p h hp
        · by_cases hv0 : v = 0
          · subst hv0
            rw [stepVote_retract s a p w hp hfv hvw]
            exact scoreInv_delete a p h hp
          · by_cases hv : v = 1 ∨ v = -1
            · rw [stepVote_switch s a p v w hp hfv hvw hv0 hv]
              exact scoreInv_update a p v h hp
            · rw [stepVote_invalid_old s a p v w hfv hvw hv0 hv]
              exact h
    · rw [stepVote_not_found s a p v (Bool.eq_false_iff.mpr hp)]
      exact h

lemma runVotes_cons (s : VoteState) (r : VoteReq) (t : List VoteReq) :
    runVotes s (r :: t) = runVotes (stepVote s r.actor r.post r.value) t := rfl

lemma scoreInv_runVotes {s : VoteState} (reqs : List VoteReq)
    (h : scoreInv s) : scoreInv (runVotes s reqs) := by
  induction reqs generalizing s with
  | nil => exact h
  | cons r t ih =>
    rw [runVotes_cons]
    exact ih (scoreInv_stepVote r.actor r.post r.value h)

lemma scoreList_mkInit (ps : List PostId) (q : PostId) :
    scoreList (ps.map (fun i => (⟨i, 0⟩ : PostRow))) q = 0 := by
  induction ps with
  | nil => rfl
  | cons i t ih =>
    rw [List.map_cons, scoreList_cons]
    by_cases h : ((⟨i, 0⟩ : PostRow)).id = q
    · rw [if_pos h]
    · rw [if_neg h]
      exact ih

lemma scoreInv_mkInit (ps : List PostId) : scoreInv (mkInit ps) := by
  intro q
  show scoreList (ps.map (fun i => (⟨i, 0⟩ : PostRow))) q = postVotes [] q
  rw [scoreList_mkInit]
  rfl

/-! ## Preservation of the `votes` table constraints -/

lemma wf_insert {s : VoteState} (a : UserId) (p : PostId) (v : Int)
    (h : wfVotes s) (hf : findVote s a p = none) (hv : v = 1 ∨ v = -1) :
    wfVotes (insertVote s a p v) := by
  constructor
  · intro r hr
    rcases List.mem_append.mp hr with hr | hr
    · exact h.1 r hr
    · rw [List.mem_singleton.mp hr]
      exact hv
  · show (s.votes ++ [(⟨a, p, v⟩ : VoteRow)]).Pairwise
      (fun r r' : VoteRow => ¬(r.user_id = r'.user_id ∧ r.post_id = r'.post_id))
    rw [List.pairwise_append]
    refine ⟨h.2, List.pairwise_singleton _ _, ?_⟩
    intro x hx y hy
    rw [List.mem_singleton.mp hy]
    intro hcon
    obtain ⟨hu, hpp⟩ := hcon
    have hm : voteMatches a p x = true := (voteMatches_iff a p x).mpr ⟨hu, hpp⟩
    have hfm := (findVote_none_iff s a p).mp hf x hx
    rw [hm] at hfm
    cases hfm

lemma wf_delete {s : VoteState} (a : UserId) (p : PostId)
    (h : wfVotes s) : wfVotes (deleteVotes s a p) := by
  constructor
  · intro r hr
    exact h.1 r (List.mem_of_mem_filter hr)
  · exact List.Pairwise.sublist (List.filter_sublist _) h.2

lemma wf_update {s : VoteState} (a : UserId) (p : PostId) (v : Int)
    (h : wfVotes s) (hv : v = 1 ∨ v = -1) : wfVotes (updateVotes s a p v) := by
  constructor
  · intro r hr
    rcases List.mem_map.mp hr with ⟨x, hx, hfx⟩
    by_cases hm : voteMatches a p x = true
    · rw [← hfx, if_pos hm]
      exact hv
    · rw [← hfx, if_neg hm]
      exact h.1 x hx
  · show (s.votes.map (fun r => if voteMatches a p r then { r with vote_type := v } else r)).Pairwise
      (fun r r' : VoteRow => ¬(r.user_id = r'.user_id ∧ r.post_id = r'.post_id))
    rw [List.pairwise_map]
    refine h.2.imp ?_
    intro x y hxy hcon
    apply hxy
    obtain ⟨hu, hpp⟩ := hcon
    rw [(updated_vote_fields a p v x).1, (updated_vote_fields a p v y).1] at hu
    rw [(updated_vote_fields a p v x).2, (updated_vote_fields a p v y).2] at hpp
    exact ⟨hu, hpp⟩

lemma wf_stepVote {s : VoteState} (actor : Option UserId) (p : PostId) (v : Int)
    (h : wfVotes s) : wfVotes (stepVote s actor p v) := by
  cases actor with
  | none => rw [stepVote_none]; exact h
  | some a =>
    by_cases hp : postExists s p
    · cases hfv : findVote s a p with
      | none =>
        by_cases hv : v = 1 ∨ v = -1
        · rw [stepVote_insert s a p v hp hfv hv]
          exact wf_insert a p v h hfv hv
        · rw [stepVote_invalid_new s a p v hfv hv]
          exact h
      | some w =>
        by_cases hvw : v = w
        · subst hvw
          rw [stepVote_toggle s a p v hp hfv]
          exact wf_delete a p h
        · by_cases hv0 : v = 0
          · subst hv0
            rw [stepVote_retract s a p w hp hfv hvw]
            exact wf_delete a p h
          · by_cases hv : v = 1 ∨ v = -1
            · rw [stepVote_switch s a p v w hp hfv hvw hv0 hv]
              exact wf_update a p v h hv
            · rw [stepVote_invalid_old s a p v w hfv hvw hv0 hv]
              exact h
    · rw [stepVote_not_found s a p v (Bool.eq_false_iff.mpr hp)]
      exact h

lemma wf_runVotes {s : VoteState} (reqs : List VoteReq)
    (h : wfVotes s) : wfVotes (runVotes s reqs) := by
  induction reqs generalizing s with
  | nil => exact h
  | cons r t ih =>
    rw [runVotes_cons]
    exact ih (wf_stepVote r.actor r.post r.value h)

lemma wf_mkInit (ps : List PostId) : wfVotes (mkInit ps) := by
  constructor
  · intro r hr
    cases hr
  · exact List.Pairwise.nil

/-- Zero is never stored as a vote value. -/
def noZeroStored (s : VoteState) : Prop :=
  ∀ r ∈ s.votes, r.vote_type ≠ 0

/-! ## Round trips: voting, toggling off, switching direction -/

lemma postExists_insert (s : VoteState) (a : UserId) (p : PostId) (v : Int) (q : PostId) :
    postExists (insertVote s a p v) q = postExists s q := by
  show (bumpScore s.posts p v).any (fun r => r.id == q) = s.posts.any (fun r => r.id == q)
  exact any_bumpScore s.posts p q v

lemma matchSum_append_single (l : List VoteRow) (r : VoteRow) (a : UserId) (p : PostId) :
    matchSum (l ++ [r]) a p
      = matchSum l a p + (if voteMatches a p r then r.vote_type else 0) := by
  by_cases h : voteMatches a p r = true
  · simp [matchSum, List.filter_append, List.filter_cons, h]
  · simp [matchSum, List.filter_append, List.filter_cons, h]

lemma matchSum_zero_of_none (s : VoteState) (a : UserId) (p : PostId)
    (hf : findVote s a p = none) : matchSum s.votes a p = 0 := by
  have hnil : s.votes.filter (voteMatches a p) = [] :=
    List.filter_eq_nil_iff.mpr
      (fun x hx => Bool.eq_false_iff.mp ((findVote_none_iff s a p).mp hf x hx))
  rw [matchSum, hnil]
  rfl

lemma filter_not_match_of_none (s : VoteState) (a : UserId) (p : PostId)
    (hf : findVote s a p = none) :
    s.votes.filter (fun r => !(voteMatches a p r)) = s.votes := by
  apply List.filter_eq_self.mpr
  intro x hx
  rw [(findVote_none_iff s a p).mp hf x hx]
  rfl

lemma toggle_roundtrip (s : VoteState) (a : UserId) (p : PostId) (v : Int)
    (hp : postExists s p = true) (hf : findVote s a p = none) (hv : v = 1 ∨ v = -1) :
    stepVote (stepVote s (some a) p v) (some a) p v = s := by
  rw [stepVote_insert s a p v hp hf hv]
  have hp1 : postExists (insertVote s a p v) p = true := by
    rw [postExists_insert]
    exact hp
  have hf1 : findVote (insertVote s a p v) a p = some v := findVote_insert_self s a p v hf
  rw [stepVote_toggle _ a p v hp1 hf1]
  simp only [deleteVotes, insertVote]
  have hsum : matchSum (s.votes ++ [(⟨a, p, v⟩ : VoteRow)]) a p = v := by
    rw [matchSum_append_single, matchSum_zero_of_none s a p hf,
      if_pos (voteMatches_self a p v), zero_add]
  have hposts : bumpScore (bumpScore s.posts p v) p (-v) = s.posts := by
    rw [bumpScore_bumpScore]
    have hz : v + -v = 0 := by ring
    rw [hz, bumpScore_zero]
  have hvotes : (s.votes ++ [(⟨a, p, v⟩ : VoteRow)]).filter (fun r => !(voteMatches a p r))
      = s.votes := by
    rw [List.filter_append, filter_not_match_of_none s a p hf]
    have hone : ([(⟨a, p, v⟩ : VoteRow)]).filter (fun r => !(voteMatches a p r)) = [] := by
      simp [voteMatches_self]
    rw [hone, List.append_nil]
  rw [hsum, hposts, hvotes]

lemma stepVote_changes (s : VoteState) (a : UserId) (p : PostId) (v : Int)
    (hp : postExists s p = true) (hf : findVote s a p = none) (hv : v = 1 ∨ v = -1) :
    stepVote s (some a) p v ≠ s := by
  rw [stepVote_insert s a p v hp hf hv]
  intro hc
  have hlen := congrArg (fun st : VoteState => st.votes.length) hc
  simp [insertVote] at hlen

lemma stepZero_idem (s : VoteState) (a : UserId) (p : PostId) :
    stepVote (stepVote s (some a) p 0) (some a) p 0 = stepVote s (some a) p 0 := by
  by_cases hp : postExists s p
  · cases hfv : findVote s a p with
    | none =>
      have h := stepVote_invalid_new s a p 0 hfv (by decide)
      rw [h]
      exact h
    | some w =>
      have hdel : stepVote s (some a) p 0 = deleteVotes s a p := by
        by_cases hw : (0 : Int) = w
        · rw [hw]
          exact stepVote_toggle s a p w hp hfv
        · exact stepVote_retract s a p w hp hfv hw
      rw [hdel]
      exact stepVote_invalid_new (deleteVotes s a p) a p 0 (findVote_delete_self s a p)
        (by decide)
  · have h := stepVote_not_found s a p 0 (Bool.eq_false_iff.mpr hp)
    rw [h]
    exact h

/-! ## Exact-delta lemmas under the table constraints -/

lemma scoreOf_delete_unique (s : VoteState) (a : UserId) (p : PostId) (w : Int)
    (hwf : wfVotes s) (hp : postExists s p = true) (hf : findVote s a p = some w) :
    scoreOf (deleteVotes s a p) p = scoreOf s p - w := by
  show scoreList (bumpScore s.posts p (-(matchSum s.votes a p))) p = scoreList s.posts p - w
  rw [scoreList_bumpScore_self s.posts p _ hp, (matchSum_of_unique s a p w hwf hf).1]
  ring

lemma scoreOf_update_unique (s : VoteState) (a : UserId) (p : PostId) (v w : Int)
    (hwf : wfVotes s) (hp : postExists s p = true) (hf : findVote s a p = some w) :
    scoreOf (updateVotes s a p v) p = scoreOf s p + v - w := by
  show scoreList (bumpScore s.posts p ((matchCount s.votes a p : Int) * v - matchSum s.votes a p)) p
    = scoreList s.posts p + v - w
  rw [scoreList_bumpScore_self s.posts p _ hp, (matchSum_of_unique s a p w hwf hf).1,
    (matchSum_of_unique s a p w hwf hf).2]
  push_cast
  ring

lemma stored_vote_pm_one (s : VoteState) (a : UserId) (p : PostId) (w : Int)
    (hwf : wfVotes s) (hf : findVote s a p = some w) : w = 1 ∨ w = -1 := by
  rcases findVote_some_elim s a p w hf with ⟨r0, hr0, hw⟩
  have hmem : r0 ∈ s.votes := List.mem_of_find?_eq_some hr0
  rcases hwf.1 r0 hmem with h | h
  · exact Or.inl (hw ▸ h)
  · exact Or.inr (hw ▸ h)

/-! ## Claims about the vote ledger -/

/-- C1: for every post and every finite sequence of `submitVote` calls,
after each call the post's cumulative `vote_count` equals the sum of the
values of all live vote rows referencing that post (every prefix of a
request sequence is itself a request sequence, so this states the
invariant after each call). -/
theorem vote_count_matches_ledger (ps : List PostId) (reqs : List VoteReq) (p : PostId) :
    scoreOf (runVotes (mkInit ps) reqs) p = postVotes (runVotes (mkInit ps) reqs).votes p :=
  scoreInv_runVotes reqs (scoreInv_mkInit ps) p

/-- C7: in every state reachable by `submitVote` calls from an initial
database, the `votes` table satisfies its declared constraints — at most
one live vote row per (user, post) pair and every stored value in
{+1, -1} — and the value zero is never stored. -/
theorem votes_unique_and_pm_one (ps : List PostId) (reqs : List VoteReq) :
    wfVotes (runVotes (mkInit ps) reqs) ∧ noZeroStored (runVotes (mkInit ps) reqs) := by
  have h := wf_runVotes reqs (wf_mkInit ps)
  refine ⟨h, ?_⟩
  intro r hr
  rcases h.1 r hr with h1 | h1 <;> (rw [h1]; decide)

/-- C2 counterexample: submitting the identical (actor, post, value)
triple twice does not yield the same state as submitting it once — the
second identical +1 vote toggles the first one off. -/
theorem replay_not_idempotent_cex :
    stepVote (stepVote (mkInit [1]) (some 0) 1 1) (some 0) 1 1
      ≠ stepVote (mkInit [1]) (some 0) 1 1 := by decide

/-- C2 amended: replaying an identical (actor, post, value) triple is an
involution, not idempotent, for value ±1: when the actor has no prior
vote on an existing post, the first call changes the state and the
second identical call restores the exact pre-first-call state (toggle
off); only a value-0 request replays idempotently on the state. -/
theorem replay_is_toggle (s : VoteState) (a : UserId) (p : PostId) (v : Int) :
    (postExists s p = true → findVote s a p = none → (v = 1 ∨ v = -1) →
      stepVote (stepVote s (some a) p v) (some a) p v = s ∧
      stepVote s (some a) p v ≠ s) ∧
    stepVote (stepVote s (some a) p 0) (some a) p 0 = stepVote s (some a) p 0 :=
  ⟨fun hp hf hv => ⟨toggle_roundtrip s a p v hp hf hv, stepVote_changes s a p v hp hf hv⟩,
    stepZero_idem s a p⟩

/-- Witness for `replay_is_toggle` at a concrete database. -/
theorem replay_is_toggle_witness :
    stepVote (stepVote (mkInit [1]) (some 0) 1 1) (some 0) 1 1 = mkInit [1] ∧
    stepVote (mkInit [1]) (some 0) 1 1 ≠ mkInit [1] :=
  (replay_is_toggle (mkInit [1]) 0 1 1).1 (by decide) (by decide) (Or.inl rfl)

/-- C4: a second identical +1 vote from an actor with no prior vote
removes the vote row and returns the score to its pre-first-call value;
in general, when the prior vote is `w` and the requested value equals
`w`, the vote row is deleted (toggle off) and the score changes by
exactly `-w`. -/
theorem same_vote_toggles_off (s : VoteState) (a : UserId) (p : PostId)
    (hwf : wfVotes s) (hp : postExists s p = true) :
    (findVote s a p = none →
      findVote (stepVote (stepVote s (some a) p 1) (some a) p 1) a p = none ∧
      scoreOf (stepVote (stepVote s (some a) p 1) (some a) p 1) p = scoreOf s p) ∧
    (∀ w, findVote s a p = some w →
      submitVote s (some a) p w = .ok (deleteVotes s a p, ⟨scoreOf s p - w, 0⟩) ∧
      findVote (deleteVotes s a p) a p = none ∧
      scoreOf (deleteVotes s a p) p = scoreOf s p - w) := by
  constructor
  · intro hf
    rw [toggle_roundtrip s a p 1 hp hf (Or.inl rfl)]
    exact ⟨hf, rfl⟩
  · intro w hf
    have hsc := scoreOf_delete_unique s a p w hwf hp hf
    refine ⟨?_, findVote_delete_self s a p, hsc⟩
    have hred : submitVote s (some a) p w
        = .ok (deleteVotes s a p, ⟨scoreOf (deleteVotes s a p) p, 0⟩) := by
      rw [submitVote]
      simp [hp, hf]
    rw [hred, hsc]

/-- Witness for `same_vote_toggles_off` at a concrete database holding
one +1 vote by user 0 on post 1. -/
theorem same_vote_toggles_off_witness :
    submitVote (⟨[⟨1, 1⟩], [⟨0, 1, 1⟩]⟩ : VoteState) (some 0) 1 1
        = .ok (deleteVotes (⟨[⟨1, 1⟩], [⟨0, 1, 1⟩]⟩ : VoteState) 0 1,
            ⟨scoreOf (⟨[⟨1, 1⟩], [⟨0, 1, 1⟩]⟩ : VoteState) 1 - 1, 0⟩) ∧
    findVote (deleteVotes (⟨[⟨1, 1⟩], [⟨0, 1, 1⟩]⟩ : VoteState) 0 1) 0 1 = none ∧
    scoreOf (deleteVotes (⟨[⟨1, 1⟩], [⟨0, 1, 1⟩]⟩ : VoteState) 0 1) 1
        = scoreOf (⟨[⟨1, 1⟩], [⟨0, 1, 1⟩]⟩ : VoteState) 1 - 1 :=
  (same_vote_toggles_off _ 0 1 (by decide) (by decide)).2 1 (by decide)

/-- C5: when the prior vote is `w ≠ 0` and the requested value is `-w`,
the vote row is updated in place to `-w` and the score changes by
exactly `-2·w`; in particular +1 followed by -1 changes the score by
exactly -2 relative to after the first call. -/
theorem opposite_vote_switches (s : VoteState) (a : UserId) (p : PostId)
    (hwf : wfVotes s) (hp : postExists s p = true) :
    (∀ w, findVote s a p = some w →
      submitVote s (some a) p (-w)
          = .ok (updateVotes s a p (-w), ⟨scoreOf s p - 2 * w, -w⟩) ∧
      findVote (updateVotes s a p (-w)) a p = some (-w) ∧
      scoreOf (updateVotes s a p (-w)) p = scoreOf s p - 2 * w) ∧
    (findVote s a p = none →
      scoreOf (stepVote (stepVote s (some a) p 1) (some a) p (-1)) p
        = scoreOf (stepVote s (some a) p 1) p - 2) := by
  constructor
  · intro w hf
    have hwpm := stored_vote_pm_one s a p w hwf hf
    have hw0 : w ≠ 0 := by omega
    have hne : -w ≠ w := by omega
    have hne0 : -w ≠ 0 := by omega
    have hvv : -w = 1 ∨ -w = -1 := by omega
    have hupd := scoreOf_update_unique s a p (-w) w hwf hp hf
    have hsc : scoreOf (updateVotes s a p (-w)) p = scoreOf s p - 2 * w := by
      rw [hupd]
      ring
    refine ⟨?_, findVote_update_self s a p (-w) w hf, hsc⟩
    have hred : submitVote s (some a) p (-w)
        = .ok (updateVotes s a p (-w), ⟨scoreOf (updateVotes s a p (-w)) p, -w⟩) := by
      rw [submitVote]
      simp only [hp, hf, ite_true]
      rw [if_neg hne, if_neg hne0, if_pos hvv]
    rw [hred, hsc]
  · intro hf
    have h1 : stepVote s (some a) p 1 = insertVote s a p 1 :=
      stepVote_insert s a p 1 hp hf (Or.inl rfl)
    have hwf1 : wfVotes (insertVote s a p 1) := wf_insert a p 1 hwf hf (Or.inl rfl)
    have hp1 : postExists (insertVote s a p 1) p = true := by
      rw [postExists_insert]
      exact hp
    have hf1 : findVote (insertVote s a p 1) a p = some 1 := findVote_insert_self s a p 1 hf
    have hstep : stepVote (insertVote s a p 1) (some a) p (-1)
        = updateVotes (insertVote s a p 1) a p (-1) :=
      stepVote_switch _ a p (-1) 1 hp1 hf1 (by decide) (by decide) (by decide)
    rw [h1, hstep, scoreOf_update_unique (insertVote s a p 1) a p (-1) 1 hwf1 hp1 hf1]
    ring

/-- Witness for `opposite_vote_switches` at the same concrete database. -/
theorem opposite_vote_switches_witness :
    submitVote (⟨[⟨1, 1⟩], [⟨0, 1, 1⟩]⟩ : VoteState) (some 0) 1 (-1)
        = .ok (updateVotes (⟨[⟨1, 1⟩], [⟨0, 1, 1⟩]⟩ : VoteState) 0 1 (-1),
            ⟨scoreOf (⟨[⟨1, 1⟩], [⟨0, 1, 1⟩]⟩ : VoteState) 1 - 2 * 1, -1⟩) ∧
    findVote (updateVotes (⟨[⟨1, 1⟩], [⟨0, 1, 1⟩]⟩ : VoteState) 0 1 (-1)) 0 1 = some (-1) ∧
    scoreOf (updateVotes (⟨[⟨1, 1⟩], [⟨0, 1, 1⟩]⟩ : VoteState) 0 1 (-1)) 1
        = scoreOf (⟨[⟨1, 1⟩], [⟨0, 1, 1⟩]⟩ : VoteState) 1 - 2 * 1 :=
  (opposite_vote_switches _ 0 1 (by decide) (by decide)).1 1 (by decide)

/-- C6: `submitVote` rejects every requested value outside {-1, 0, +1}
with `InvalidVoteValue` (on an existing post with an authenticated
actor, in any state satisfying the table constraints), an
unauthenticated call is rejected with `Unauthorized`, a call on a
missing post with `NotFound`, and every rejected call leaves the state
exactly as it was. -/
theorem submitVote_rejections (s : VoteState) (a : UserId) (p : PostId) (v : Int) :
    submitVote s none p v = .error .Unauthorized ∧
    (postExists s p = false → submitVote s (some a) p v = .error .NotFound) ∧
    (wfVotes s → postExists s p = true → ¬(v = -1 ∨ v = 0 ∨ v = 1) →
      submitVote s (some a) p v = .error .InvalidVoteValue) ∧
    (∀ actor e, submitVote s actor p v = .error e → stepVote s actor p v = s) := by
  refine ⟨rfl, ?_, ?_, ?_⟩
  · intro h
    rw [submitVote]
    simp [h]
  · intro hwf hp hv
    have hv' : ¬(v = 1 ∨ v = -1) := by
      intro hc
      rcases hc with h | h
      · exact hv (Or.inr (Or.inr h))
      · exact hv (Or.inl h)
    cases hfv : findVote s a p with
    | none =>
      rw [submitVote]
      simp [hp, hfv, hv']
    | some w =>
      have hwpm := stored_vote_pm_one s a p w hwf hfv
      have hvw : ¬(v = w) := by
        intro hc
        rw [hc] at hv'
        exact hv' hwpm
      have hv0 : ¬(v = 0) := fun hc => hv (Or.inr (Or.inl hc))
      rw [submitVote]
      simp [hp, hfv, hvw, hv0, hv']
  · intro actor e h
    simp only [stepVote, h]

/-- Witness for `submitVote_rejections` at concrete inputs: value 2 on
an existing post, a missing post, an unauthenticated call, and
rollback of the rejected call. -/
theorem submitVote_rejections_witness :
    submitVote (mkInit [1]) none 1 2 = .error .Unauthorized ∧
    submitVote (mkInit [1]) (some 0) 2 2 = .error .NotFound ∧
    submitVote (mkInit [1]) (some 0) 1 2 = .error .InvalidVoteValue ∧
    stepVote (mkInit [1]) (some 0) 1 2 = mkInit [1] :=
  ⟨(submitVote_rejections (mkInit [1]) 0 1 2).1,
    (submitVote_rejections (mkInit [1]) 0 2 2).2.1 (by decide),
    (submitVote_rejections (mkInit [1]) 0 1 2).2.2.1 (by decide) (by decide) (by decide),
    (submitVote_rejections (mkInit [1]) 0 1 2).2.2.2 (some 0) .InvalidVoteValue rfl⟩

/-! ## Ranking (the `GET /api/posts` sorting algorithms)

The PRD defines three orderings over posts:
`hot`: `score / (hours_since_posted + 2)^1.5` descending,
`new`: `created_at` descending, `top`: `vote_count` descending.
The `rank` function itself (signature `rank(posts, mode, now)` with the
evaluation time passed in, returning the ordered post identifiers, ties
broken by post identifier) is unimplemented in the source and is
modelled from the spec; the three ordering keys are the PRD's.

A fractional power is not rational-valued, so the executable comparator
orders by the sign-adjusted square of the hot score, `±score²/(age+2)³`,
which is a rational number; `hotKey_lt_iff` below proves that for
nonnegative ages this induces exactly the ordering of
`score / (age+2)^1.5` over the reals. -/

structure RankPost where
  id : Nat
  score : Int
  created_at : ℚ
deriving DecidableEq

inductive SortMode where
  | hot
  | new
  | top
deriving DecidableEq

/-- Hours since posting, fractional: `(now - created_at)` seconds / 3600
(the PRD's `EXTRACT(EPOCH FROM (now - created_at)) / 3600`). -/
def ageHours (now : ℚ) (p : RankPost) : ℚ := (now - p.created_at) / 3600

/-- Computable order key for the hot formula: the sign-adjusted square
`±(score² / (ageHours+2)³)` of `score / (ageHours+2)^1.5`. -/
def hotKey (now : ℚ) (p : RankPost) : ℚ :=
  if 0 ≤ p.score then (p.score : ℚ) ^ 2 / (ageHours now p + 2) ^ 3
  else -((p.score : ℚ) ^ 2 / (ageHours now p + 2) ^ 3)

/-- Descending order on a key, ties broken by ascending post identifier. -/
def keyLe {K : Type} [LinearOrder K] (key : RankPost → K) (a b : RankPost) : Prop :=
  key b < key a ∨ (key b = key a ∧ a.id ≤ b.id)

instance {K : Type} [LinearOrder K] (key : RankPost → K) : DecidableRel (keyLe key) :=
  fun _ _ => inferInstanceAs (Decidable (_ ∨ _))

lemma keyLe_total {K : Type} [LinearOrder K] (key : RankPost → K) (a b : RankPost) :
    keyLe key a b ∨ keyLe key b a := by
  rcases lt_trichotomy (key a) (key b) with h | h | h
  · exact Or.inr (Or.inl h)
  · rcases Nat.le_total a.id b.id with hi | hi
    · exact Or.inl (Or.inr ⟨h.symm, hi⟩)
    · exact Or.inr (Or.inr ⟨h, hi⟩)
  · exact Or.inl (Or.inl h)

lemma keyLe_trans {K : Type} [LinearOrder K] (key : RankPost → K) (a b c : RankPost)
    (hab : keyLe key a b) (hbc : keyLe key b c) : keyLe key a c := by
  rcases hab with h1 | ⟨h1, hi1⟩ <;> rcases hbc with h2 | ⟨h2, hi2⟩
  · exact Or.inl (h2.trans h1)
  · exact Or.inl (h2 ▸ h1)
  · exact Or.inl (h1 ▸ h2)
  · exact Or.inr ⟨h2.trans h1, hi1.trans hi2⟩

lemma keyLe_antisymm_id {K : Type} [LinearOrder K] (key : RankPost → K) (a b : RankPost)
    (hab : keyLe key a b) (hba : keyLe key b a) : a.id = b.id := by
  rcases hab with h1 | ⟨h1, hi1⟩ <;> rcases hba with h2 | ⟨h2, hi2⟩
  · exact absurd (h1.trans h2) (lt_irrefl _)
  · exact absurd (h2 ▸ h1) (lt_irrefl _)
  · exact absurd (h1 ▸ h2) (lt_irrefl _)
  · exact Nat.le_antisymm hi1 hi2

/-- The ordering of each sort mode: keys from the PRD's ORDER BY
clauses, identifier tie-break from the spec. -/
def rankRel (mode : SortMode) (now : ℚ) : RankPost → RankPost → Prop :=
  match mode with
  | .new => keyLe (fun p => p.created_at)
  | .top => keyLe (fun p => p.score)
  | .hot => keyLe (hotKey now)

instance (mode : SortMode) (now : ℚ) : DecidableRel (rankRel mode now) :=
  match mode with
  | .new => inferInstanceAs (DecidableRel (keyLe (fun p => p.created_at)))
  | .top => inferInstanceAs (DecidableRel (keyLe (fun p => p.score)))
  | .hot => inferInstanceAs (DecidableRel (keyLe (hotKey now)))

lemma rankRel_total (mode : SortMode) (now : ℚ) (a b : RankPost) :
    rankRel mode now a b ∨ rankRel mode now b a := by
  cases mode <;> exact keyLe_total _ a b

lemma rankRel_trans (mode : SortMode) (now : ℚ) (a b c : RankPost)
    (hab : rankRel mode now a b) (hbc : rankRel mode now b c) : rankRel mode now a c := by
  cases mode <;> exact keyLe_trans _ a b c hab hbc

lemma rankRel_antisymm_id (mode : SortMode) (now : ℚ) (a b : RankPost)
    (hab : rankRel mode now a b) (hba : rankRel mode now b a) : a.id = b.id := by
  cases mode <;> exact keyLe_antisymm_id _ a b hab hba

/-- Modelled from the spec: the sorted sequence of posts. -/
def rankPosts (posts : List RankPost) (mode : SortMode) (now : ℚ) : List RankPost :=
  posts.insertionSort (rankRel mode now)

/-- Modelled from the spec: `rank(posts, mode, now)` returns the ordered
sequence of post identifiers; `now` is the caller-supplied evaluation
time, so `rank` is a pure function of its three arguments. -/
def rank (posts : List RankPost) (mode : SortMode) (now : ℚ) : List Nat :=
  (rankPosts posts mode now).map (fun p => p.id)

lemma rankPosts_sorted (posts : List RankPost) (mode : SortMode) (now : ℚ) :
    List.Sorted (rankRel mode now) (rankPosts posts mode now) := by
  letI : IsTotal RankPost (rankRel mode now) := ⟨rankRel_total mode now⟩
  letI : IsTrans RankPost (rankRel mode now) := ⟨rankRel_trans mode now⟩
  exact List.sorted_insertionSort _ _

lemma rankPosts_perm (posts : List RankPost) (mode : SortMode) (now : ℚ) :
    (rankPosts posts mode now).Perm posts :=
  List.perm_insertionSort _ _

/-- The spec's hot score over the reals, literally
`score / (ageHours + 2)^1.5`. -/
noncomputable def hotScoreR (now : ℚ) (p : RankPost) : ℝ :=
  (p.score : ℝ) / ((ageHours now p : ℝ) + 2) ^ (1.5 : ℝ)

lemma rpow_three_halves (x : ℝ) (hx : 0 ≤ x) :
    x ^ (1.5 : ℝ) = Real.sqrt (x ^ 3) := by
  have h15 : (1.5 : ℝ) = (3 : ℝ) * (1 / 2 : ℝ) := by norm_num
  rw [h15, Real.rpow_mul hx, show (3 : ℝ) = ((3 : ℕ) : ℝ) by norm_num,
    Real.rpow_natCast, ← Real.sqrt_eq_rpow]

lemma mul_self_abs_strictMono : StrictMono (fun x : ℝ => x * |x|) := by
  intro a b hab
  show a * |a| < b * |b|
  rcases le_or_lt 0 a with ha | ha
  · have hb : 0 < b := lt_of_le_of_lt ha hab
    rw [abs_of_nonneg ha, abs_of_pos hb]
    nlinarith
  · rcases le_or_lt 0 b with hb | hb
    · have h1 : a * |a| < 0 := by
        rw [abs_of_neg ha]
        nlinarith
      have h2 : 0 ≤ b * |b| := by
        rw [abs_of_nonneg hb]
        exact mul_self_nonneg b
      linarith
    · rw [abs_of_neg ha, abs_of_neg hb]
      nlinarith

lemma hotKey_cast (now : ℚ) (p : RankPost) (hage : 0 ≤ ageHours now p) :
    ((hotKey now p : ℚ) : ℝ) = hotScoreR now p * |hotScoreR now p| := by
  have hD : (0 : ℝ) < (ageHours now p : ℝ) + 2 := by
    have : (0 : ℝ) ≤ (ageHours now p : ℝ) := by exact_mod_cast hage
    linarith
  have hD3 : (0 : ℝ) ≤ ((ageHours now p : ℝ) + 2) ^ 3 := by positivity
  have hs : hotScoreR now p
      = (p.score : ℝ) / Real.sqrt (((ageHours now p : ℝ) + 2) ^ 3) := by
    rw [hotScoreR, rpow_three_halves _ hD.le]
  have hprod : hotScoreR now p * |hotScoreR now p|
      = ((p.score : ℝ) * |(p.score : ℝ)|) / ((ageHours now p : ℝ) + 2) ^ 3 := by
    rw [hs, abs_div, abs_of_nonneg (Real.sqrt_nonneg _), div_mul_div_comm,
      Real.mul_self_sqrt hD3]
  rw [hprod]
  by_cases hsgn : 0 ≤ p.score
  · have hsr : (0 : ℝ) ≤ ((p.score : Int) : ℝ) := by exact_mod_cast hsgn
    rw [hotKey, if_pos hsgn, abs_of_nonneg hsr]
    push_cast
    ring
  · have hsr : ((p.score : Int) : ℝ) < 0 := by
      have : (p.score : Int) < 0 := lt_of_not_ge hsgn
      exact_mod_cast this
    rw [hotKey, if_neg hsgn, abs_of_neg hsr]
    push_cast
    ring

lemma hotKey_lt_iff (now : ℚ) (a b : RankPost)
    (ha : 0 ≤ ageHours now a) (hb : 0 ≤ ageHours now b) :
    (hotKey now a < hotKey now b ↔ hotScoreR now a < hotScoreR now b) := by
  rw [show (hotKey now a < hotKey now b)
      ↔ ((hotKey now a : ℝ) < (hotKey now b : ℝ)) from Rat.cast_lt.symm,
    hotKey_cast now a ha, hotKey_cast now b hb]
  exact mul_self_abs_strictMono.lt_iff_lt

lemma hotKey_eq_iff (now : ℚ) (a b : RankPost)
    (ha : 0 ≤ ageHours now a) (hb : 0 ≤ ageHours now b) :
    (hotKey now a = hotKey now b ↔ hotScoreR now a = hotScoreR now b) := by
  rw [show (hotKey now a = hotKey now b)
      ↔ ((hotKey now a : ℝ) = (hotKey now b : ℝ)) from Rat.cast_injective.eq_iff.symm,
    hotKey_cast now a ha, hotKey_cast now b hb]
  exact mul_self_abs_strictMono.injective.eq_iff

/-- C3: `rank` sorts by the mode's ordering; the result is a
permutation of the input projected to identifiers; the ordering is
total and transitive with ties broken by post identifier; `new` is
descending creation time, `top` descending score, and for nonnegative
post ages the `hot` ordering is exactly descending
`score / (ageHours + 2)^1.5` over the reals; `rank` reads no clock, so
it is a pure function of its arguments by construction. -/
theorem rank_total_order (posts : List RankPost) (mode : SortMode) (now : ℚ) :
    (rankPosts posts mode now).Perm posts ∧
    List.Sorted (rankRel mode now) (rankPosts posts mode now) ∧
    rank posts mode now = (rankPosts posts mode now).map (fun p => p.id) ∧
    (∀ a b, rankRel mode now a b ∨ rankRel mode now b a) ∧
    (∀ a b c, rankRel mode now a b → rankRel mode now b c → rankRel mode now a c) ∧
    (∀ a b, rankRel mode now a b → rankRel mode now b a → a.id = b.id) ∧
    (∀ a b, rankRel SortMode.new now a b ↔
      (b.created_at < a.created_at ∨ (b.created_at = a.created_at ∧ a.id ≤ b.id))) ∧
    (∀ a b, rankRel SortMode.top now a b ↔
      (b.score < a.score ∨ (b.score = a.score ∧ a.id ≤ b.id))) ∧
    (∀ a b, 0 ≤ ageHours now a → 0 ≤ ageHours now b →
      (rankRel SortMode.hot now a b ↔
        (hotScoreR now b < hotScoreR now a ∨
          (hotScoreR now b = hotScoreR now a ∧ a.id ≤ b.id)))) := by
  refine ⟨rankPosts_perm posts mode now, rankPosts_sorted posts mode now, rfl,
    rankRel_total mode now, rankRel_trans mode now, rankRel_antisymm_id mode now,
    fun _ _ => Iff.rfl, fun _ _ => Iff.rfl, ?_⟩
  intro a b ha hb
  show keyLe (hotKey now) a b ↔ _
  rw [keyLe]
  exact or_congr (hotKey_lt_iff now b a hb ha)
    (and_congr_left (fun _ => hotKey_eq_iff now b a hb ha))

/-- Witness for `rank_total_order`: the spec's worked example — a
0-hour-old post with score 10 ranks above a 48-hour-old post with
score 12 — with the age hypotheses discharged. -/
theorem rank_total_order_witness :
    (rankPosts [⟨1, 10, 0⟩, ⟨2, 12, -172800⟩] SortMode.hot 0).Perm
        [⟨1, 10, 0⟩, ⟨2, 12, -172800⟩] ∧
    (rankRel SortMode.hot 0 (⟨1, 10, 0⟩ : RankPost) (⟨2, 12, -172800⟩ : RankPost) ↔
      (hotScoreR 0 (⟨2, 12, -172800⟩ : RankPost) < hotScoreR 0 (⟨1, 10, 0⟩ : RankPost) ∨
        (hotScoreR 0 (⟨2, 12, -172800⟩ : RankPost) = hotScoreR 0 (⟨1, 10, 0⟩ : RankPost) ∧
          (⟨1, 10, 0⟩ : RankPost).id ≤ (⟨2, 12, -172800⟩ : RankPost).id))) :=
  ⟨(rank_total_order [⟨1, 10, 0⟩, ⟨2, 12, -172800⟩] SortMode.hot 0).1,
    (rank_total_order [⟨1, 10, 0⟩, ⟨2, 12, -172800⟩] SortMode.hot 0).2.2.2.2.2.2.2.2
      ⟨1, 10, 0⟩ ⟨2, 12, -172800⟩ (div_nonneg (by simp) (by simp))
      (div_nonneg (by simp) (by simp))⟩

/-! ## Deletion cascade rules

From the PRD schema: `posts.user_id ... ON DELETE CASCADE`,
`posts.topic_id UUID NOT NULL REFERENCES topics(id) ON DELETE SET NULL`,
`votes.post_id ... ON DELETE CASCADE`, `reports.post_id ... ON DELETE
CASCADE`, `reports.reporter_id ... ON DELETE SET NULL`; and the PRD's
Cascade Rules section: delete post → delete associated votes and
reports; delete topic → set `posts.topic_id` to NULL.

Deleting a referenced topic makes the SET NULL action write NULL into
`posts.topic_id`; because that column is declared NOT NULL, the write
violates the constraint and the whole DELETE is rejected. -/

/-- A `posts` row for the cascade model: the `topic_id` column is
nullable at the value level (`Option`), while the schema declares it
NOT NULL — `deleteTopic` checks that declaration. -/
structure TopicPost where
  id : Nat
  topic_id : Option Nat
deriving DecidableEq

structure ReportRow where
  reporter_id : Option Nat
  post_id : Nat
deriving DecidableEq

structure ForumDB where
  topics : List Nat
  posts : List TopicPost
  votes : List VoteRow
  reports : List ReportRow
deriving DecidableEq

inductive DeleteError where
  | NotNullViolation
deriving DecidableEq

/-- `DELETE FROM topics WHERE id = t`: the foreign key's ON DELETE SET
NULL action nulls `topic_id` on every referencing post; the NOT NULL
declaration on that column then rejects the transaction whenever a
referencing post exists. -/
def deleteTopic (db : ForumDB) (t : Nat) : Except DeleteError ForumDB :=
  let posts' := db.posts.map
    (fun p => if p.topic_id == some t then { p with topic_id := none } else p)
  if posts'.all (fun p => p.topic_id.isSome) then
    .ok { db with topics := db.topics.filter (fun x => !(x == t)), posts := posts' }
  else
    .error .NotNullViolation

/-- `DELETE FROM posts WHERE id = pid`: votes and reports referencing
the post are deleted by their ON DELETE CASCADE actions. -/
def deletePost (db : ForumDB) (pid : Nat) : ForumDB :=
  { db with
    posts := db.posts.filter (fun p => !(p.id == pid)),
    votes := db.votes.filter (fun v => !(v.post_id == pid)),
    reports := db.reports.filter (fun r => !(r.post_id == pid)) }

/-- C8: deleting a post cascades — the resulting votes and reports
tables keep exactly the rows not referencing it (shown both in general
and at a concrete database) — but deleting a topic that still has a
post does NOT detach the post: the schema's `topic_id UUID NOT NULL ...
ON DELETE SET NULL` makes the SET NULL action violate NOT NULL, so the
topic deletion is rejected, contradicting the claim and the PRD's own
Cascade Rules section. -/
theorem topic_delete_not_null_bug :
    deleteTopic (⟨[1], [⟨1, some 1⟩], [⟨0, 1, 1⟩], [⟨some 0, 1⟩]⟩ : ForumDB) 1
        = .error .NotNullViolation ∧
    deletePost (⟨[1], [⟨1, some 1⟩], [⟨0, 1, 1⟩], [⟨some 0, 1⟩]⟩ : ForumDB) 1
        = (⟨[1], [], [], []⟩ : ForumDB) ∧
    (∀ db pid,
      (deletePost db pid).votes = db.votes.filter (fun v => !(v.post_id == pid)) ∧
      (deletePost db pid).reports = db.reports.filter (fun r => !(r.post_id == pid)) ∧
      (deletePost db pid).posts = db.posts.filter (fun p => !(p.id == pid))) :=
  ⟨rfl, rfl, fun _ _ => ⟨rfl, rfl, rfl⟩⟩

/-! ## Frontend `PostCard` (threadsMenu.jsx)

The implemented component destructures props `{data, content}`, renders
the post text and four buttons labelled with `data.upvote`,
`data.downvote`, `data.comments`, `data.shares`, and wires the buttons
to `handleUpvote` / `handleDownvote` / `handleComment` / `handleShare`,
all of which have empty bodies; `handleMultipleMedia` also has an empty
body, so the media sections render nothing.  The component declares no
state, so a click can only act through its handler: an empty handler
returns the props unchanged and performs no requests. -/

structure PostCardData where
  upvote : Int
  downvote : Int
  comments : Int
  shares : Int
deriving DecidableEq

structure PostCardContent where
  post : Option String
  image : List String
  video : List String
deriving DecidableEq

/-- `function handleMultipleMedia(array) { /* empty */ }`: renders
nothing. -/
def handleMultipleMedia (_media : List String) : List String := []

/-- `function handleUpvote() {}`: no state change, no network request
(the returned effect list is the list of issued requests). -/
def handleUpvote (data : PostCardData) (content : PostCardContent) :
    (PostCardData × PostCardContent) × List String :=
  ((data, content), [])

/-- `function handleDownvote() {}`. -/
def handleDownvote (data : PostCardData) (content : PostCardContent) :
    (PostCardData × PostCardContent) × List String :=
  ((data, content), [])

/-- The rendered output of `PostCard` as the list of displayed texts. -/
def renderPostCard (data : PostCardData) (content : PostCardContent) : List String :=
  (match content.post with
   | some t => [t]
   | none => []) ++
  handleMultipleMedia content.image ++
  handleMultipleMedia content.video ++
  ["upvote " ++ toString data.upvote,
   "downvote " ++ toString data.downvote,
   "Comment " ++ toString data.comments,
   "Share " ++ toString data.shares]

/-- C10: the `PostCard` vote handlers are inert — for every props
value, a click on the upvote or downvote button submits no request and
changes no state, and the rendered output (including the displayed
upvote/downvote counts) is identical before and after the click. -/
theorem postcard_vote_handlers_inert (data : PostCardData) (content : PostCardContent) :
    handleUpvote data content = ((data, content), []) ∧
    handleDownvote data content = ((data, content), []) ∧
    renderPostCard (handleUpvote data content).1.1 (handleUpvote data content).1.2
      = renderPostCard data content ∧
    renderPostCard (handleDownvote data content).1.1 (handleDownvote data content).1.2
      = renderPostCard data content :=
  ⟨rfl, rfl, rfl, rfl⟩



end Forum
